import Mathlib

/-!
Verification of the ERT data-processing core of the pygimli repository
(`pygimli/physics/ert/processing.py`, `pygimli/physics/ert/ertIPManager.py`,
`pygimli/__init__.py`) against its natural-language specification.

The Python code is shallowly embedded: a `DataContainerERT` becomes a sensor
count together with a list of measurements, numpy float vectors become lists
of rationals, integer index vectors become lists of integers, and the
stateful in-place loops become folds over an explicit measurement-list state.
Python `%` and `//` on integers are floor-style, embedded as `Int.emod` and
`Int.fdiv`.
-/

/-- One row of a `DataContainerERT`: the four electrode indices a, b, m, n
(current pair A/B, potential pair M/N, 0-based) and the float data fields
used by `processing.py`: resistance `r`, voltage `u`, current `i`,
error `err`, apparent resistivity `rhoa`, reciprocity `recv` (the container
field called `rec` in the source) and the validity flag `valid`
(a float vector in the source; truthy iff nonzero). -/
structure Meas where
  a : ℤ := 0
  b : ℤ := 0
  m : ℤ := 0
  n : ℤ := 0
  r : ℚ := 0
  u : ℚ := 0
  i : ℚ := 0
  err : ℚ := 0
  rhoa : ℚ := 0
  recv : ℚ := 0
  valid : ℚ := 1
deriving DecidableEq, Repr

/-- A `DataContainerERT`: sensor count, whether the `r` field is registered
(`haveData('r')`), and the measurement rows. -/
structure DataERT where
  sc : ℕ
  haveR : Bool := true
  meas : List Meas
deriving DecidableEq, Repr

/-- Per-measurement body of `uniqueERTIndex`: normalize the current pair
and the potential pair to (min,max)+1 and pack the four digits with
`ind = ind * nI + digit`, in order a b m n, or m n a b when `reverse`. -/
def uniqueIndex (nI : ℤ) (reverse : Bool) (e : Meas) : ℤ :=
  let na := min e.a e.b + 1
  let nb := max e.a e.b + 1
  let nm := min e.m e.n + 1
  let nn := max e.m e.n + 1
  let digits := if reverse then [nm, nn, na, nb] else [na, nb, nm, nn]
  digits.foldl (fun ind d => ind * nI + d) 0

/-- `uniqueERTIndex(data, nI=0, reverse=False)`: unique key per measurement;
`nI = 0` defaults the base to `sensorCount() + 1`. -/
def uniqueERTIndex (data : DataERT) (nI : ℕ) (reverse : Bool) :
    List ℤ :=
  let base : ℤ := if nI = 0 then (data.sc : ℤ) + 1 else (nI : ℤ)
  data.meas.map (uniqueIndex base reverse)

/-- Body of the unpacking loop of `generateDataFromUniqueIndex`: four rounds
of `col = ind % nI; ind = (ind - col) // nI`, producing columns n, m, b, a
(tokens "nmba"), each decremented by 1; the fresh scheme rows carry
`valid = 1` and zeroed data fields. -/
def decodeUnique (nI : ℤ) (k : ℤ) : Meas :=
  let c0 := k % nI
  let k1 := (k - c0).fdiv nI
  let c1 := k1 % nI
  let k2 := (k1 - c1).fdiv nI
  let c2 := k2 % nI
  let k3 := (k2 - c2).fdiv nI
  let c3 := k3 % nI
  { a := c3 - 1, b := c2 - 1, m := c1 - 1, n := c0 - 1, valid := 1 }

/-- `generateDataFromUniqueIndex(ind, data)`: rebuild a scheme (one row per
key) from unique keys; the caller-side base is `sensorCount() + 1`. -/
def generateDataFromUniqueIndex (ind : List ℤ) (nI : ℤ) : List Meas :=
  ind.map (decodeUnique nI)

section Codec

/-- Unpacking one base-`nI` digit `d` off `nI * x + d`. -/
lemma digit_unpack (nI x d : ℤ) (hd0 : 0 ≤ d) (hd : d < nI) :
    (nI * x + d) % nI = d ∧ ((nI * x + d) - d).fdiv nI = x := by
  have hne : nI ≠ 0 := by omega
  have hmod : (nI * x + d) % nI = d := by
    rw [add_comm, Int.add_mul_emod_self_left, Int.emod_eq_of_lt hd0 hd]
  refine ⟨hmod, ?_⟩
  have : nI * x + d - d = nI * x := by ring
  rw [this, Int.mul_fdiv_cancel_left _ hne]

/-- `decodeUnique` recovers the four digits of a packed key whose digits all
lie in `[0, nI)`. -/
lemma decodeUnique_pack (nI d1 d2 d3 d4 : ℤ)
    (h1 : 0 ≤ d1) (h1' : d1 < nI) (h2 : 0 ≤ d2) (h2' : d2 < nI)
    (h3 : 0 ≤ d3) (h3' : d3 < nI) (h4 : 0 ≤ d4) (h4' : d4 < nI) :
    decodeUnique nI (((d1 * nI + d2) * nI + d3) * nI + d4) =
      { a := d1 - 1, b := d2 - 1, m := d3 - 1, n := d4 - 1, valid := 1 } := by
  have e4 : ((d1 * nI + d2) * nI + d3) * nI + d4 =
      nI * ((d1 * nI + d2) * nI + d3) + d4 := by ring
  have u4 := digit_unpack nI ((d1 * nI + d2) * nI + d3) d4 h4 h4'
  have e3 : (d1 * nI + d2) * nI + d3 = nI * (d1 * nI + d2) + d3 := by ring
  have u3 := digit_unpack nI (d1 * nI + d2) d3 h3 h3'
  have e2 : d1 * nI + d2 = nI * d1 + d2 := by ring
  have u2 := digit_unpack nI d1 d2 h2 h2'
  have u1 : d1 % nI = d1 := Int.emod_eq_of_lt h1 h1'
  simp only [decodeUnique]
  rw [e4, u4.1, u4.2, e3, u3.1, u3.2, e2, u2.1, u2.2, u1]

/-- The forward (non-reversed) key, written as an explicit digit packing. -/
lemma uniqueIndex_false_eq (nI : ℤ) (e : Meas) :
    uniqueIndex nI false e =
      (((min e.a e.b + 1) * nI + (max e.a e.b + 1)) * nI +
        (min e.m e.n + 1)) * nI + (max e.m e.n + 1) := by
  simp only [uniqueIndex, List.foldl, if_neg Bool.false_ne_true,
    Bool.false_eq_true, if_false]
  ring

/-- The reversed key, written as an explicit digit packing. -/
lemma uniqueIndex_true_eq (nI : ℤ) (e : Meas) :
    uniqueIndex nI true e =
      (((min e.m e.n + 1) * nI + (max e.m e.n + 1)) * nI +
        (min e.a e.b + 1)) * nI + (max e.a e.b + 1) := by
  simp only [uniqueIndex, List.foldl, if_true]
  ring

/-- C2 — `encode(a,b,m,n,base,True) = encode(m,n,a,b,base,False)` for every
base ≥ 2 and electrode indices in `[0, base-1)`: encoding a measurement with
the current/potential roles swapped and `reverse=False` gives the same key as
encoding the original with `reverse=True`. -/
theorem uniqueIndex_reverse_swap (base a b m n : ℤ)
    (hbase : 2 ≤ base)
    (ha : 0 ≤ a) (ha' : a < base - 1) (hb : 0 ≤ b) (hb' : b < base - 1)
    (hm : 0 ≤ m) (hm' : m < base - 1) (hn : 0 ≤ n) (hn' : n < base - 1) :
    uniqueIndex base true { a := a, b := b, m := m, n := n } =
      uniqueIndex base false { a := m, b := n, m := a, n := b } := by
  rw [uniqueIndex_true_eq, uniqueIndex_false_eq]

/-- Witness for C2: 4-electrode layout (base 5), measurement (0,1,2,3) and
its reciprocal (2,3,0,1) share the key 482. -/
theorem uniqueIndex_reverse_swap_witness :
    uniqueIndex 5 true { a := 0, b := 1, m := 2, n := 3 } =
        uniqueIndex 5 false { a := 2, b := 3, m := 0, n := 1 } ∧
      uniqueIndex 5 true { a := 0, b := 1, m := 2, n := 3 } = 482 := by
  constructor
  · exact uniqueIndex_reverse_swap 5 0 1 2 3 (by norm_num) (by norm_num)
      (by norm_num) (by norm_num) (by norm_num) (by norm_num) (by norm_num)
      (by norm_num) (by norm_num)
  · decide

/-- C3 — decoding a forward-encoded key recovers the unordered electrode
pairs: for indices in `[0, nI - 1)` (with `nI = sensorCount + 1`),
`decodeUnique nI (uniqueIndex nI false e)` has current pair
(min(a,b), max(a,b)) and potential pair (min(m,n), max(m,n)). -/
theorem decode_encode_roundtrip (nI a b m n : ℤ)
    (ha : 0 ≤ a) (ha' : a < nI - 1) (hb : 0 ≤ b) (hb' : b < nI - 1)
    (hm : 0 ≤ m) (hm' : m < nI - 1) (hn : 0 ≤ n) (hn' : n < nI - 1) :
    decodeUnique nI (uniqueIndex nI false { a := a, b := b, m := m, n := n }) =
      { a := min a b, b := max a b, m := min m n, n := max m n, valid := 1 } := by
  rw [uniqueIndex_false_eq]
  have h := decodeUnique_pack nI (min a b + 1) (max a b + 1) (min m n + 1)
    (max m n + 1)
    (by omega) (by omega) (by omega) (by omega)
    (by omega) (by omega) (by omega) (by omega)
  simpa using h

/-- Witness for C3: base 5, tuple (1,0,3,2) decodes back to pairs (0,1), (2,3). -/
theorem decode_encode_roundtrip_witness :
    decodeUnique 5 (uniqueIndex 5 false { a := 1, b := 0, m := 3, n := 2 }) =
      { a := 0, b := 1, m := 2, n := 3, valid := 1 } :=
  decode_encode_roundtrip 5 1 0 3 2 (by norm_num) (by norm_num) (by norm_num)
    (by norm_num) (by norm_num) (by norm_num) (by norm_num) (by norm_num)

end Codec

/-- Update the element at position `i` (no-op when out of range), modelling
an in-place write `data(tok)[i] = v` to one field of one row. -/
def updAt (l : List Meas) (j : ℕ) (f : Meas → Meas) : List Meas :=
  match l[j]? with
  | some x => l.set j (f x)
  | none => l

/-- `removeInvalid`. Modelled from the spec: `DataContainer.removeInvalid`
lives in the pygimli core, not under the sampled sources; per the spec,
invalid measurements are filtered at this explicit compaction step, so it
drops every row whose `valid` flag is zero (falsy). -/
def removeInvalid (l : List Meas) : List Meas :=
  l.filter (fun e => decide (e.valid ≠ 0))

/-- One iteration of the `getReciprocals` loop body at backward position
`iB`: if the reversed key `unB[iB]` occurs among the forward keys, take the
first such position `iF`, record the reciprocity in the `rec` field at `iF`,
and, when `change` is set and row `iF` is valid, overwrite r, i, u at `iF`
with the current-weighted combination of the values read at this point
(and mark row `iB` invalid when additionally `remove` is set). -/
def recipStep (unF unB : List ℤ) (change remove : Bool)
    (st : List Meas) (iB : ℕ) : List Meas :=
  match unB[iB]? with
  | none => st
  | some key =>
    match List.findIdx? (fun x => x == key) unF with
    | none => st
    | some iF =>
      match st[iF]?, st[iB]? with
      | some eF, some eB =>
        let recv := (eF.r - eB.r) / (eF.r + eB.r) * 2
        let st1 := updAt st iF (fun e => { e with recv := recv })
        if change = true ∧ eF.valid ≠ 0 then
          let r' := (eF.r * eF.i + eB.r * eB.i) / (eF.i + eB.i)
          let i' := (eF.i ^ 2 + eB.i ^ 2) / (eF.i + eB.i)
          let st2 := updAt (updAt (updAt st1 iF (fun e => { e with r := r' }))
            iF (fun e => { e with i := i' })) iF (fun e => { e with u := r' * i' })
          if remove = true then updAt st2 iB (fun e => { e with valid := 0 })
          else st2
        else st1
      | _, _ => st

/-- The `getReciprocals` matching loop, run over the first `k` backward
positions (the source runs it for `k = data.size()`). -/
def loopUpTo (unF unB : List ℤ) (change remove : Bool)
    (d : List Meas) (k : ℕ) : List Meas :=
  (List.range k).foldl (recipStep unF unB change remove) d

/-- Derivation step at the head of `getReciprocals`: if not all resistances
are nonzero, set `r = u / i` for every row; then `data.set('rec', ...)`
zeroes the `rec` field everywhere. -/
def recPrepare (data : List Meas) : List Meas :=
  let d1 :=
    if ∀ e ∈ data, e.r ≠ 0 then data
    else data.map (fun e => { e with r := e.u / e.i })
  d1.map (fun e => { e with recv := 0 })

/-- `getReciprocals(data, change=False, remove=False)`: derive `r` when
needed, compute forward and reversed keys, run the matching loop, and when
`remove` compact the container with `removeInvalid`. -/
def getReciprocals (data : DataERT) (change : Bool)
    (remove : Bool) : DataERT :=
  let d2 := recPrepare data.meas
  let unF := uniqueERTIndex { data with meas := d2 } 0 false
  let unB := uniqueERTIndex { data with meas := d2 } 0 true
  let d3 := loopUpTo unF unB change remove d2 d2.length
  { data with meas := if remove = true then removeInvalid d3 else d3 }

/-- One iteration of the `extractReciprocals` loop at backward position
`iB`: reads come from the immutable `fwd`/`bwd` containers; writes go to
the accumulators `both` (copy of `fwd`) and `back` (copy of `bwd`).
The source computes the merged `u` as `fwd('r')[iF] * fwd('i')[iF]`
(the original forward values, not the merged ones). -/
def extractStep (fwd bwd : List Meas) (unF unB : List ℤ)
    (acc : List Meas × List Meas) (iB : ℕ) : List Meas × List Meas :=
  match unB[iB]? with
  | none => acc
  | some key =>
    match List.findIdx? (fun x => x == key) unF with
    | none => acc
    | some iF =>
      match fwd[iF]?, bwd[iB]? with
      | some eF, some eB =>
        let recv := (eF.r - eB.r) / (eF.r + eB.r) * 2
        let r' := (eF.r * eF.i + eB.r * eB.i) / (eF.i + eB.i)
        let i' := (eF.i ^ 2 + eB.i ^ 2) / (eF.i + eB.i)
        let both' := updAt acc.1 iF (fun e =>
          { e with recv := recv, r := r', i := i', u := eF.r * eF.i })
        let back' := updAt acc.2 iB (fun e => { e with valid := 0 })
        (both', back')
      | _, _ => acc

/-- `extractReciprocals(fwd, bwd)`: match every backward row against the
forward keys (base `nMax = max(sensorCount)`), merge matched rows into
`both`, invalidate them in `back`, compact `back`, and append it to `both`. -/
def extractReciprocals (fwd bwd : DataERT) : DataERT :=
  let nMax := max fwd.sc bwd.sc
  let unF := uniqueERTIndex fwd nMax false
  let unB := uniqueERTIndex bwd nMax true
  let both0 := fwd.meas.map (fun e => { e with recv := 0 })
  let back0 := bwd.meas.map (fun e => { e with recv := 0 })
  let res := (List.range bwd.meas.length).foldl
    (extractStep fwd.meas bwd.meas unF unB) (both0, back0)
  { fwd with meas := res.1 ++ removeInvalid res.2 }

section RecipLoop

/-- The (r, i, u) data triple of a row. -/
def riu (e : Meas) : ℚ × ℚ × ℚ := (e.r, e.i, e.u)

/-- The forward position that the loop pairs with backward position `k`:
the first index of `unB[k]` within `unF`, if any. -/
def fwdTarget (unF unB : List ℤ) (k : ℕ) : Option ℕ :=
  unB[k]?.bind (fun key => List.findIdx? (fun x => x == key) unF)

lemma updAt_length (l : List Meas) (j : ℕ) (f : Meas → Meas) :
    (updAt l j f).length = l.length := by
  unfold updAt
  cases h : l[j]? with
  | none => rfl
  | some x => simp [List.length_set]

lemma updAt_getElem? (l : List Meas) (j j' : ℕ) (f : Meas → Meas) :
    (updAt l j f)[j']? = if j' = j then (l[j]?).map f else l[j']? := by
  unfold updAt
  cases h : l[j]? with
  | none =>
    simp only [h, Option.map_none']
    split
    · next heq => subst heq; exact h
    · rfl
  | some x =>
    rw [List.getElem?_set]
    have hj : j < l.length := (List.getElem?_eq_some.mp h).1
    split
    · next heq => subst heq; simp [hj, h]
    · next hne =>
      split
      · next heq => exact absurd heq.symm hne
      · rfl

lemma updAt_get_self (l : List Meas) (j : ℕ) (f : Meas → Meas) :
    (updAt l j f)[j]? = (l[j]?).map f := by
  simp [updAt_getElem?]

lemma updAt_get_ne (l : List Meas) (j j' : ℕ) (f : Meas → Meas)
    (h : j' ≠ j) : (updAt l j f)[j']? = l[j']? := by
  simp [updAt_getElem?, h]

/-- A write that a projection `p` cannot see leaves `p` of every row alone. -/
lemma updAt_map_proj {α : Type} (p : Meas → α) (l : List Meas) (j j' : ℕ)
    (f : Meas → Meas) (hp : ∀ e, p (f e) = p e) :
    ((updAt l j f)[j']?).map p = (l[j']?).map p := by
  rw [updAt_getElem?]
  split
  · next heq =>
    subst heq
    cases l[j']? with
    | none => rfl
    | some x => simp [hp]
  · rfl

lemma recipStep_length (unF unB : List ℤ) (c rm : Bool) (st : List Meas)
    (k : ℕ) : (recipStep unF unB c rm st k).length = st.length := by
  unfold recipStep
  split
  · rfl
  split
  · rfl
  split
  · dsimp only
    split
    · split
      · simp only [updAt_length]
      · simp only [updAt_length]
    · simp only [updAt_length]
  · rfl

/-- Writing the `valid` field cannot change the (r, i, u) triple. -/
lemma updAt_set_valid_riu (l : List Meas) (j j' : ℕ) (v : ℚ) :
    ((updAt l j (fun e => { e with valid := v }))[j']?).map riu =
      (l[j']?).map riu :=
  updAt_map_proj riu l j j' _ (fun _ => rfl)

/-- Writing the `rec` field cannot change the (r, i, u) triple. -/
lemma updAt_set_recv_riu (l : List Meas) (j j' : ℕ) (v : ℚ) :
    ((updAt l j (fun e => { e with recv := v }))[j']?).map riu =
      (l[j']?).map riu :=
  updAt_map_proj riu l j j' _ (fun _ => rfl)

/-- Writing the `rec` field cannot change the `valid` flag. -/
lemma updAt_set_recv_valid (l : List Meas) (j j' : ℕ) (v : ℚ) :
    ((updAt l j (fun e => { e with recv := v }))[j']?).map Meas.valid =
      (l[j']?).map Meas.valid :=
  updAt_map_proj Meas.valid l j j' _ (fun _ => rfl)

/-- Writing the `r` field cannot change the `valid` flag. -/
lemma updAt_set_r_valid (l : List Meas) (j j' : ℕ) (v : ℚ) :
    ((updAt l j (fun e => { e with r := v }))[j']?).map Meas.valid =
      (l[j']?).map Meas.valid :=
  updAt_map_proj Meas.valid l j j' _ (fun _ => rfl)

/-- Writing the `i` field cannot change the `valid` flag. -/
lemma updAt_set_i_valid (l : List Meas) (j j' : ℕ) (v : ℚ) :
    ((updAt l j (fun e => { e with i := v }))[j']?).map Meas.valid =
      (l[j']?).map Meas.valid :=
  updAt_map_proj Meas.valid l j j' _ (fun _ => rfl)

/-- Writing the `u` field cannot change the `valid` flag. -/
lemma updAt_set_u_valid (l : List Meas) (j j' : ℕ) (v : ℚ) :
    ((updAt l j (fun e => { e with u := v }))[j']?).map Meas.valid =
      (l[j']?).map Meas.valid :=
  updAt_map_proj Meas.valid l j j' _ (fun _ => rfl)

/-- Rows other than the step's forward target keep their r, i, u values. -/
lemma recipStep_riu_frame (unF unB : List ℤ) (c rm : Bool) (st : List Meas)
    (k j : ℕ) (h : fwdTarget unF unB k ≠ some j) :
    ((recipStep unF unB c rm st k)[j]?).map riu = (st[j]?).map riu := by
  unfold recipStep
  split
  · rfl
  next key hk =>
  split
  · rfl
  next iF hf =>
  have hne : j ≠ iF := by
    intro heq
    exact h (by simp [fwdTarget, hk, hf, heq])
  split
  · dsimp only
    split
    · split
      · rw [updAt_set_valid_riu, updAt_get_ne _ _ _ _ hne,
          updAt_get_ne _ _ _ _ hne, updAt_get_ne _ _ _ _ hne,
          updAt_get_ne _ _ _ _ hne]
      · rw [updAt_get_ne _ _ _ _ hne, updAt_get_ne _ _ _ _ hne,
          updAt_get_ne _ _ _ _ hne, updAt_get_ne _ _ _ _ hne]
    · rw [updAt_get_ne _ _ _ _ hne]
  · rfl

/-- Rows other than the step's backward position keep their `valid` flag. -/
lemma recipStep_valid_frame (unF unB : List ℤ) (c rm : Bool) (st : List Meas)
    (k j : ℕ) (h : j ≠ k) :
    ((recipStep unF unB c rm st k)[j]?).map Meas.valid =
      (st[j]?).map Meas.valid := by
  unfold recipStep
  split
  · rfl
  split
  · rfl
  split
  · dsimp only
    split
    · split
      · rw [updAt_get_ne _ _ _ _ h, updAt_set_u_valid, updAt_set_i_valid,
          updAt_set_r_valid, updAt_set_recv_valid]
      · rw [updAt_set_u_valid, updAt_set_i_valid, updAt_set_r_valid,
          updAt_set_recv_valid]
    · rw [updAt_set_recv_valid]
  · rfl

/-- Overwriting `valid` with 0 at an in-range position makes it 0. -/
lemma updAt_valid_zero (l : List Meas) (j : ℕ) (hj : j < l.length) :
    ((updAt l j (fun e => { e with valid := 0 }))[j]?).map Meas.valid =
      some 0 := by
  rw [updAt_get_self, List.getElem?_eq_getElem hj]
  rfl

/-- The loop only ever clears `valid`: a zero flag stays zero. -/
lemma recipStep_valid_zero (unF unB : List ℤ) (c rm : Bool) (st : List Meas)
    (k j : ℕ) (h : (st[j]?).map Meas.valid = some 0) :
    ((recipStep unF unB c rm st k)[j]?).map Meas.valid = some 0 := by
  by_cases hjk : j = k
  · subst hjk
    have hlen : j < st.length := by
      cases hst : st[j]? with
      | none => rw [hst] at h; exact absurd h (by simp)
      | some x => exact (List.getElem?_eq_some.mp hst).1
    unfold recipStep
    split
    · exact h
    split
    · exact h
    split
    · dsimp only
      split
      · split
        · apply updAt_valid_zero
          simpa only [updAt_length] using hlen
        · rw [updAt_set_u_valid, updAt_set_i_valid, updAt_set_r_valid,
            updAt_set_recv_valid]
          exact h
      · rw [updAt_set_recv_valid]
        exact h
    · exact h
  · rw [recipStep_valid_frame unF unB c rm st k j hjk]
    exact h

lemma loopUpTo_succ (unF unB : List ℤ) (c rm : Bool) (d : List Meas)
    (k : ℕ) :
    loopUpTo unF unB c rm d (k + 1) =
      recipStep unF unB c rm (loopUpTo unF unB c rm d k) k := by
  unfold loopUpTo
  rw [List.range_succ, List.foldl_append]
  rfl

/-- Rows never chosen as a forward target keep r, i, u through the pass. -/
lemma loopUpTo_riu_frame (unF unB : List ℤ) (c rm : Bool) (d : List Meas)
    (kmax j : ℕ) (h : ∀ k, k < kmax → fwdTarget unF unB k ≠ some j) :
    ((loopUpTo unF unB c rm d kmax)[j]?).map riu = (d[j]?).map riu := by
  induction kmax with
  | zero => rfl
  | succ k ih =>
    rw [loopUpTo_succ,
      recipStep_riu_frame _ _ _ _ _ _ _ (h k (Nat.lt_succ_self k)),
      ih (fun k' hk' => h k' (Nat.lt_succ_of_lt hk'))]

/-- A cleared `valid` flag survives to the end of the pass. -/
lemma loopUpTo_valid_zero_mono (unF unB : List ℤ) (c rm : Bool)
    (d : List Meas) (k0 kmax j : ℕ) (hk : k0 ≤ kmax)
    (h : ((loopUpTo unF unB c rm d k0)[j]?).map Meas.valid = some 0) :
    ((loopUpTo unF unB c rm d kmax)[j]?).map Meas.valid = some 0 := by
  induction kmax with
  | zero =>
    have : k0 = 0 := Nat.le_zero.mp hk
    simpa [this] using h
  | succ k ih =>
    rcases Nat.lt_or_ge k0 (k + 1) with hlt | hge
    · have hk0 : k0 ≤ k := Nat.lt_succ_iff.mp hlt
      rw [loopUpTo_succ]
      exact recipStep_valid_zero _ _ _ _ _ _ _ (ih hk0)
    · have : k0 = k + 1 := Nat.le_antisymm hk hge
      simpa [this] using h

/-- `recPrepare` never changes r, i, u when all resistances are nonzero. -/
lemma recPrepare_riu (data : List Meas) (hr : ∀ e ∈ data, e.r ≠ 0) (j : ℕ) :
    ((recPrepare data)[j]?).map riu = (data[j]?).map riu := by
  unfold recPrepare
  rw [if_pos hr]
  simp only [List.getElem?_map]
  cases data[j]? with
  | none => rfl
  | some x => rfl

end RecipLoop

lemma recPrepare_length (data : List Meas) :
    (recPrepare data).length = data.length := by
  unfold recPrepare
  split <;> simp

lemma loopUpTo_length (unF unB : List ℤ) (c rm : Bool) (d : List Meas)
    (k : ℕ) : (loopUpTo unF unB c rm d k).length = d.length := by
  induction k with
  | zero => rfl
  | succ k ih => rw [loopUpTo_succ, recipStep_length, ih]

/-- Unfolding one matched loop step: when backward position `k` pairs with
forward position `iF` (first index of `unB[k]` in `unF`) and row `iF` is
valid, the step with `change` overwrites r, i, u at `iF` with the
current-weighted combination of the values held by rows `iF` and `k` at
that moment. -/
lemma recipStep_matched_riu (unF unB : List ℤ) (rm : Bool) (st : List Meas)
    (k iF : ℕ) (eF eB : Meas)
    (ht : fwdTarget unF unB k = some iF)
    (hsF : st[iF]? = some eF) (hsB : st[k]? = some eB)
    (hv : eF.valid ≠ 0) :
    ((recipStep unF unB true rm st k)[iF]?).map riu =
      some ((eF.r * eF.i + eB.r * eB.i) / (eF.i + eB.i),
        (eF.i ^ 2 + eB.i ^ 2) / (eF.i + eB.i),
        (eF.r * eF.i + eB.r * eB.i) / (eF.i + eB.i) *
          ((eF.i ^ 2 + eB.i ^ 2) / (eF.i + eB.i))) := by
  obtain ⟨key, hk, hf⟩ : ∃ key, unB[k]? = some key ∧
      List.findIdx? (fun x => x == key) unF = some iF := by
    unfold fwdTarget at ht
    cases hk : unB[k]? with
    | none => rw [hk] at ht; exact absurd ht (by simp)
    | some key => rw [hk] at ht; exact ⟨key, rfl, by simpa using ht⟩
  unfold recipStep
  rw [hk]
  dsimp only
  rw [hf]
  dsimp only
  rw [hsF, hsB]
  dsimp only
  rw [if_pos ⟨rfl, hv⟩]
  cases rm with
  | true =>
    rw [if_pos rfl, updAt_set_valid_riu, updAt_get_self, updAt_get_self,
      updAt_get_self, updAt_get_self, hsF]
    rfl
  | false =>
    rw [if_neg (by simp), updAt_get_self, updAt_get_self, updAt_get_self,
      updAt_get_self, hsF]
    rfl

/-- C4 amended — with `change=True`, each pair matched by the loop (backward
position `k` against the first forward position `iF` carrying the same key)
whose forward row is valid has its forward row's resistance, current and
voltage overwritten with r' = (rF·IF + rB·IB)/(IF + IB),
i' = (IF² + IB²)/(IF + IB) and u' = r'·i', where rF, IF, rB, IB are the
values held by the two rows at the moment the pair is processed (an earlier
matched pair of the same pass may already have overwritten them, since
matching is symmetric); rows never matched as a forward target keep their
resistance, current and voltage unchanged. -/
theorem getReciprocals_change_overwrites (data : DataERT) (remove : Bool)
    (unF unB : List ℤ)
    (hF : unF = uniqueERTIndex { data with meas := recPrepare data.meas } 0 false)
    (hB : unB = uniqueERTIndex { data with meas := recPrepare data.meas }
      0 true)
    (hr : ∀ e ∈ data.meas, e.r ≠ 0) :
    (∀ k iF eF eB,
      fwdTarget unF unB k = some iF →
      (loopUpTo unF unB true remove (recPrepare data.meas) k)[iF]? = some eF →
      (loopUpTo unF unB true remove (recPrepare data.meas) k)[k]? = some eB →
      eF.valid ≠ 0 →
      ((loopUpTo unF unB true remove (recPrepare data.meas) (k + 1))[iF]?).map
          riu =
        some ((eF.r * eF.i + eB.r * eB.i) / (eF.i + eB.i),
          (eF.i ^ 2 + eB.i ^ 2) / (eF.i + eB.i),
          (eF.r * eF.i + eB.r * eB.i) / (eF.i + eB.i) *
            ((eF.i ^ 2 + eB.i ^ 2) / (eF.i + eB.i)))) ∧
    (∀ j, (∀ k, k < data.meas.length → fwdTarget unF unB k ≠ some j) →
      ((getReciprocals data true false).meas[j]?).map riu =
        (data.meas[j]?).map riu) := by
  constructor
  · intro k iF eF eB ht hsF hsB hv
    rw [loopUpTo_succ]
    exact recipStep_matched_riu unF unB remove _ k iF eF eB ht hsF hsB hv
  · intro j hj
    have hlen : (recPrepare data.meas).length = data.meas.length :=
      recPrepare_length data.meas
    simp only [getReciprocals, Bool.false_eq_true, if_false]
    rw [← hF, ← hB]
    rw [loopUpTo_riu_frame unF unB true false _ _ j
      (fun k hk => hj k (by rwa [hlen] at hk))]
    exact recPrepare_riu data.meas hr j

/-- Forward measurement A-B = 0-1, M-N = 2-3 with r = u = i = 1. -/
def rowA : Meas := { a := 0, b := 1, m := 2, n := 3, r := 1, u := 1, i := 1 }

/-- Reciprocal of `rowA` (roles exchanged) with r = u = 3, i = 1. -/
def rowB : Meas := { a := 2, b := 3, m := 0, n := 1, r := 3, u := 3, i := 1 }

/-- A measurement with no reciprocal partner, r = u = 5, i = 1. -/
def rowC : Meas := { a := 0, b := 2, m := 1, n := 3, r := 5, u := 5, i := 1 }

/-- A forward/backward pair over a 4-electrode layout. -/
def pairData : DataERT := { sc := 4, meas := [rowA, rowB] }

/-- The same pair plus one unmatched measurement. -/
def tripleData : DataERT := { sc := 4, meas := [rowA, rowB, rowC] }

/-- C4 counterexample — on the dataset {rowA, rowB} (a reciprocal pair with
input resistances rF = 1, rB = 3 and currents IF = IB = 1), `getReciprocals`
with `change=True` leaves row 0 with resistance 3/2, not the value
(rF·IF + rB·IB)/(IF + IB) = 2 the claim computes from the pair's input
values: matching is symmetric, so the pass first merges backward values
into row 1, and row 0 is then merged against the already-overwritten row 1. -/
theorem getReciprocals_change_claim_refuted :
    ((getReciprocals pairData true false).meas[0]?).map Meas.r =
        some (3 / 2) ∧
      (3 / 2 : ℚ) ≠ (1 * 1 + 3 * 1) / (1 + 1) := by
  constructor
  · with_unfolding_all rfl
  · norm_num

/-- Witness for C4 amended: on `tripleData`, the pair processed at backward
position 1 (forward target 0, both rows still valid) is overwritten from
the state current at that moment — row 1 already holds the merged
resistance 2 — giving row 0 the triple (3/2, 1, 3/2); the unmatched row 2
keeps (5, 1, 5). -/
theorem getReciprocals_change_overwrites_witness :
    ((loopUpTo
        (uniqueERTIndex { tripleData with meas := recPrepare tripleData.meas } 0 false)
        (uniqueERTIndex { tripleData with meas := recPrepare tripleData.meas }
          0 true)
        true false (recPrepare tripleData.meas) 2)[0]?).map riu =
      some (3 / 2, 1, 3 / 2) ∧
    ((getReciprocals tripleData true false).meas[2]?).map riu =
      (tripleData.meas[2]?).map riu := by
  have h := getReciprocals_change_overwrites tripleData false
    (uniqueERTIndex { tripleData with meas := recPrepare tripleData.meas } 0 false)
    (uniqueERTIndex { tripleData with meas := recPrepare tripleData.meas }
      0 true)
    rfl rfl (by decide)
  constructor
  · have h1 := h.1 1 0
      { a := 0, b := 1, m := 2, n := 3, r := 1, u := 1, i := 1 }
      { a := 2, b := 3, m := 0, n := 1, r := 2, u := 2, i := 1, recv := 1 }
      (by decide) (by with_unfolding_all rfl) (by with_unfolding_all rfl)
      (by decide)
    have : ((3 : ℚ) / 2, (1 : ℚ), (3 : ℚ) / 2) =
        (((1 : ℚ) * 1 + 2 * 1) / (1 + 1), ((1 : ℚ) ^ 2 + 1 ^ 2) / (1 + 1),
          ((1 : ℚ) * 1 + 2 * 1) / (1 + 1) * (((1 : ℚ) ^ 2 + 1 ^ 2) / (1 + 1))) := by
      norm_num
    rw [this]
    exact h1
  · exact h.2 2 (by decide)

/-- A matched step with `change` and `remove` set (and a valid forward row)
clears the backward row's `valid` flag. -/
lemma recipStep_matched_marks (unF unB : List ℤ) (st : List Meas)
    (k iF : ℕ) (eF eB : Meas)
    (ht : fwdTarget unF unB k = some iF)
    (hsF : st[iF]? = some eF) (hsB : st[k]? = some eB)
    (hv : eF.valid ≠ 0) :
    ((recipStep unF unB true true st k)[k]?).map Meas.valid = some 0 := by
  obtain ⟨key, hk, hf⟩ : ∃ key, unB[k]? = some key ∧
      List.findIdx? (fun x => x == key) unF = some iF := by
    unfold fwdTarget at ht
    cases hk : unB[k]? with
    | none => rw [hk] at ht; exact absurd ht (by simp)
    | some key => rw [hk] at ht; exact ⟨key, rfl, by simpa using ht⟩
  have hklen : k < st.length := (List.getElem?_eq_some.mp hsB).1
  unfold recipStep
  rw [hk]
  dsimp only
  rw [hf]
  dsimp only
  rw [hsF, hsB]
  dsimp only
  rw [if_pos ⟨rfl, hv⟩, if_pos rfl]
  apply updAt_valid_zero
  simpa only [updAt_length] using hklen

/-- C5 amended — the backward row of a matched pair is marked invalid only
under `change=True` (the `remove` branch is nested inside the `change`
branch and additionally requires a valid forward row), and with
`remove=True` the pass then runs `removeInvalid`, which deletes the marked
rows from the returned container instead of keeping them. -/
theorem getReciprocals_remove_marks_then_compacts (data : DataERT)
    (unF unB : List ℤ)
    (hF : unF = uniqueERTIndex { data with meas := recPrepare data.meas } 0 false)
    (hB : unB = uniqueERTIndex { data with meas := recPrepare data.meas }
      0 true)
    (k iF : ℕ) (eF eB : Meas)
    (ht : fwdTarget unF unB k = some iF)
    (hsF : (loopUpTo unF unB true true (recPrepare data.meas) k)[iF]? =
      some eF)
    (hsB : (loopUpTo unF unB true true (recPrepare data.meas) k)[k]? =
      some eB)
    (hv : eF.valid ≠ 0) (hk : k < (recPrepare data.meas).length) :
    ((loopUpTo unF unB true true (recPrepare data.meas)
        (recPrepare data.meas).length)[k]?).map Meas.valid = some 0 ∧
    (getReciprocals data true true).meas =
      removeInvalid (loopUpTo unF unB true true (recPrepare data.meas)
        (recPrepare data.meas).length) ∧
    ∀ e ∈ (getReciprocals data true true).meas, e.valid ≠ 0 := by
  have hmark : ((loopUpTo unF unB true true (recPrepare data.meas)
      (k + 1))[k]?).map Meas.valid = some 0 := by
    rw [loopUpTo_succ]
    exact recipStep_matched_marks unF unB _ k iF eF eB ht hsF hsB hv
  have h1 := loopUpTo_valid_zero_mono unF unB true true (recPrepare data.meas)
    (k + 1) (recPrepare data.meas).length k hk hmark
  have h2 : (getReciprocals data true true).meas =
      removeInvalid (loopUpTo unF unB true true (recPrepare data.meas)
        (recPrepare data.meas).length) := by
    subst hF hB
    rfl
  refine ⟨h1, h2, ?_⟩
  intro e he
  rw [h2] at he
  unfold removeInvalid at he
  exact of_decide_eq_true (List.mem_filter.mp he).2

/-- C5 counterexample — on the reciprocal pair {rowA, rowB},
`getReciprocals` with `remove=True` but `change=False` marks nothing (both
rows keep `valid = 1`, though both are backward rows of matched pairs), so
the marking is not independent of the `change` flag; and with `change=True`
and `remove=True` the backward row is deleted (size drops from 2 to 1), not
kept as an invalid row. -/
theorem getReciprocals_remove_claim_refuted :
    ((getReciprocals pairData false true).meas[0]?).map Meas.valid =
        some 1 ∧
      ((getReciprocals pairData false true).meas[1]?).map Meas.valid =
        some 1 ∧
      (getReciprocals pairData true true).meas.length = 1 := by
  refine ⟨?_, ?_, ?_⟩
  · with_unfolding_all rfl
  · with_unfolding_all rfl
  · with_unfolding_all rfl

/-- Witness for C5 amended: on the pair {rowA, rowB} with `change=True` and
`remove=True`, the pair processed at backward position 0 (forward target 1)
leaves row 0 marked invalid at the end of the loop, and the returned
container is the compaction of the loop state, every surviving row valid. -/
theorem getReciprocals_remove_marks_witness :
    ((loopUpTo
        (uniqueERTIndex { pairData with meas := recPrepare pairData.meas } 0 false)
        (uniqueERTIndex { pairData with meas := recPrepare pairData.meas }
          0 true)
        true true (recPrepare pairData.meas)
        (recPrepare pairData.meas).length)[0]?).map Meas.valid = some 0 ∧
    (getReciprocals pairData true true).meas =
      removeInvalid (loopUpTo
        (uniqueERTIndex { pairData with meas := recPrepare pairData.meas } 0 false)
        (uniqueERTIndex { pairData with meas := recPrepare pairData.meas }
          0 true)
        true true (recPrepare pairData.meas)
        (recPrepare pairData.meas).length) ∧
    ∀ e ∈ (getReciprocals pairData true true).meas, e.valid ≠ 0 :=
  getReciprocals_remove_marks_then_compacts pairData
    (uniqueERTIndex { pairData with meas := recPrepare pairData.meas } 0 false)
    (uniqueERTIndex { pairData with meas := recPrepare pairData.meas }
      0 true)
    rfl rfl 0 1
    { a := 2, b := 3, m := 0, n := 1, r := 3, u := 3, i := 1 }
    { a := 0, b := 1, m := 2, n := 3, r := 1, u := 1, i := 1 }
    (by decide) (by with_unfolding_all rfl) (by with_unfolding_all rfl)
    (by decide) (by rw [recPrepare_length]; decide)

/-- C6 — the r = u/i invariant is broken by `extractReciprocals`: for the
reciprocal pair fwd = {rowA} (r = u = i = 1), bwd = {rowB} (r = u = 3,
i = 1), both inputs satisfying r = u/i, the merged row gets r' = 2 and
i' = 1 but u' = fwd('r')·fwd('i') = 1 (the source multiplies the original
forward values instead of the merged ones, unlike the parallel line in
`getReciprocals`), so r' ≠ u'/i' on the output. -/
theorem extractReciprocals_breaks_invariant :
    rowA.r = rowA.u / rowA.i ∧ rowB.r = rowB.u / rowB.i ∧
      ((extractReciprocals { sc := 4, meas := [rowA] }
          { sc := 4, meas := [rowB] }).meas[0]?).map riu = some (2, 1, 1) ∧
      (2 : ℚ) ≠ 1 / 1 := by
  refine ⟨by norm_num [rowA], by norm_num [rowB], ?_, by norm_num⟩
  with_unfolding_all rfl

section InitModule

/-- Errors a top-level statement of the package body can raise. -/
inductive PyError where
  | zeroDivisionError
deriving DecidableEq, Repr

/-- Top-level statements of `pygimli/__init__.py`, abstracted to the four
kinds that matter for the import contract: imports of standard-library
modules, imports from pygimli submodules, top-level defs/assignments,
top-level calls, and a bare integer-division expression statement. -/
inductive PyStmt where
  | importStd : PyStmt
  | importSub : PyStmt
  | defOrAssign : PyStmt
  | callTop : PyStmt
  | exprDiv (num den : ℤ) : PyStmt
deriving DecidableEq, Repr

/-- Python division `a / b`: raises ZeroDivisionError when `b = 0`. -/
def pyDiv (a b : ℤ) : Except PyError ℚ :=
  if b = 0 then .error .zeroDivisionError else .ok ((a : ℚ) / (b : ℚ))

/-- Execute a module body in order: return the statements that completed
before the first raised error, and that error if one occurred. -/
def runModuleBody : List PyStmt → List PyStmt × Option PyError
  | [] => ([], none)
  | .exprDiv a b :: rest =>
    match pyDiv a b with
    | .error e => ([], some e)
    | .ok _ =>
      let res := runModuleBody rest
      (.exprDiv a b :: res.1, res.2)
  | s :: rest =>
    let res := runModuleBody rest
    (s :: res.1, res.2)

/-- The module body of `pygimli/__init__.py`, in source order:
`import sys`, `import locale` (stdlib), the bare `1/0` expression marked
"jenkins test", then the many `from .core...`/`from .meshtools...` etc.
submodule imports (19 of them), interleaved with the `warning = warn`
assignment, and finally the top-level defs, calls and assignments
(`checkAndFixLocaleDecimal_point` def + call, `setDebug`/`setVerbose`
calls, `__version__`, `findVersion` def + call, `version`, `isNotebook`,
`__swatch__`, `tic`, `toc`, `dur`, `_plt`). -/
def pygimliInitBody : List PyStmt :=
  [.importStd, .importStd, .exprDiv 1 0,
   .importSub, .importSub, .importSub, .importSub, .importSub, .importSub,
   .defOrAssign,
   .importSub, .importSub, .importSub, .importSub, .importSub, .importSub,
   .importSub, .importSub, .importSub, .importSub, .importSub, .importSub,
   .importSub,
   .defOrAssign, .callTop, .callTop, .callTop,
   .defOrAssign, .defOrAssign, .callTop, .defOrAssign, .defOrAssign,
   .defOrAssign, .defOrAssign, .defOrAssign, .defOrAssign, .defOrAssign]

/-- C1 — importing the top-level pygimli package always raises
ZeroDivisionError from the unguarded `1/0`: the only statements that
complete are the two standard-library imports, so no submodule import and
no definition of the package body ever completes, leaving no public
operation reachable through the package entry point. -/
theorem pygimli_import_always_fails :
    (runModuleBody pygimliInitBody).2 = some PyError.zeroDivisionError ∧
      (runModuleBody pygimliInitBody).1 = [PyStmt.importStd, PyStmt.importStd] ∧
      PyStmt.importSub ∉ (runModuleBody pygimliInitBody).1 ∧
      PyStmt.defOrAssign ∉ (runModuleBody pygimliInitBody).1 := by
  refine ⟨rfl, rfl, ?_, ?_⟩ <;> decide

end InitModule

section OutOfRange

/-- C8 counterexample — `uniqueERTIndex` does not fail on out-of-range
electrode indices: with 4 sensors, the tuple (4, 1, 2, 3) (first index
equal to sensorCount, hence out of range) is encoded to the ordinary key
394, and (-1, 1, 2, 3) (negative index) to 69; no InvalidLayout error
exists anywhere in the encoding path. -/
theorem uniqueERTIndex_claim_fails_no_error :
    uniqueERTIndex { sc := 4, meas := [{ a := 4, b := 1, m := 2, n := 3 }] } 0 false =
        [394] ∧
      uniqueERTIndex { sc := 4, meas := [{ a := -1, b := 1, m := 2, n := 3 }] } 0 false =
        [69] := by
  constructor <;> decide

/-- C8 amended — the encoding performs no range validation: any integer
indices, also negative ones or ones ≥ sensorCount, are packed into a key
and returned; because an out-of-range index produces a digit outside
[1, sensorCount + 1), the codec guarantees then fail: the key 257 of the
out-of-range tuple (0, 4, 0, 1) (4 = sensorCount) decodes to the different
tuple (1, -1, 0, 1), and the two distinct tuples (0, 4, 0, 1) and
(-1, 9, 0, 1) collide on the same key. -/
theorem uniqueERTIndex_no_range_check :
    uniqueERTIndex { sc := 4, meas := [{ a := 0, b := 4, m := 0, n := 1 }] } 0 false =
        [257] ∧
      decodeUnique 5 257 = { a := 1, b := -1, m := 0, n := 1, valid := 1 } ∧
      uniqueIndex 5 false { a := 0, b := 4, m := 0, n := 1 } =
          uniqueIndex 5 false { a := -1, b := 9, m := 0, n := 1 } ∧
      ({ a := 0, b := 4, m := 0, n := 1 } : Meas) ≠
          { a := -1, b := 9, m := 0, n := 1 } := by
  refine ⟨?_, ?_, ?_, ?_⟩ <;> decide

end OutOfRange

section TDIP

/-- Python `max` over a data vector (raises on an empty one, hence `none`). -/
def pyMax : List ℚ → Option ℚ
  | [] => none
  | x :: xs => some (xs.foldl max x)

/-- The inputs `invertTDIP` hands to the external IP inversion run. -/
structure TDIPRun where
  ipdataUsed : List ℚ
  errorIP : List ℚ
deriving DecidableEq, Repr

/-- Data-ingestion stage of `ERTIPManager.invertTDIP`: when
`max(ipdata) > 1` (values in mV/V) divide every chargeability by 1000,
then build the absolute error `0.03 + 0.001 / ipdata` from the rescaled
data; the mesh/forward-operator construction and the inversion itself are
external collaborators consuming these vectors. -/
def invertTDIPPrep (ipdata : List ℚ) : TDIPRun :=
  let ipdata2 :=
    match pyMax ipdata with
    | some mx => if mx > 1 then ipdata.map (· / 1000) else ipdata
    | none => ipdata
  { ipdataUsed := ipdata2
    errorIP := ipdata2.map (fun v => 3 / 100 + 1 / 1000 / v) }

/-- C9 — when the chargeability data's maximum exceeds 1, `invertTDIP`
divides every value by 1000 exactly once before the inversion runs (the
data it passes on is precisely the single elementwise division of the
input), and leaves the data untouched otherwise. -/
theorem invertTDIP_rescales_once (ipdata : List ℚ) (mx : ℚ)
    (hmx : pyMax ipdata = some mx) :
    (1 < mx → (invertTDIPPrep ipdata).ipdataUsed = ipdata.map (· / 1000)) ∧
      (¬ 1 < mx → (invertTDIPPrep ipdata).ipdataUsed = ipdata) := by
  constructor
  · intro h1
    unfold invertTDIPPrep
    rw [hmx]
    simp only [if_pos h1]
  · intro h1
    unfold invertTDIPPrep
    rw [hmx]
    simp only [if_neg h1]

/-- Witness for C9: chargeability [0, 5, 12] (mV/V, maximum 12 > 1) is
rescaled to [0, 0.005, 0.012]. -/
theorem invertTDIP_rescales_once_witness :
    pyMax [0, 5, 12] = some 12 ∧
      (invertTDIPPrep [0, 5, 12]).ipdataUsed =
        [0, (0.005 : ℚ), (0.012 : ℚ)] := by
  refine ⟨by with_unfolding_all rfl, ?_⟩
  have h := (invertTDIP_rescales_once [0, 5, 12] 12
    (by with_unfolding_all rfl)).1 (by norm_num)
  rw [h]
  with_unfolding_all rfl

end TDIP

section MeshFreeze

/-- A pygimli mesh as the IP workflow sees it: a stable cell ordering
(cell count) and the per-cell markers. -/
structure PgMesh where
  cellCount : ℕ
  cellMarkers : List ℤ
deriving DecidableEq, Repr

/-- Modelled from the spec: `pg.Mesh.setCellMarkers` lives in the pygimli
core, which is not among the sampled sources; per the spec's
DCDone→IPRunning step, `mesh0.setCellMarkers(mesh0.cellCount())` freezes
the copied DC mesh "by assigning each cell its own distinct marker", i.e.
cell j receives marker j. -/
def setCellMarkersFromCount (mesh : PgMesh) : PgMesh :=
  { mesh with cellMarkers := (List.range mesh.cellCount).map Int.ofNat }

/-- The mesh-freezing step of `invertTDIP`: `mesh0 = pg.Mesh(paraDomain)`
copies the DC parameter domain, then the per-cell markers are assigned. -/
def invertTDIPFreezeMesh (paraDomain : PgMesh) : PgMesh :=
  setCellMarkersFromCount paraDomain

/-- C10 — before the IP forward operator is built, the copied DC-stage mesh
is frozen with one marker per cell, all markers pairwise distinct. -/
theorem invertTDIP_freezes_mesh (paraDomain : PgMesh) :
    (invertTDIPFreezeMesh paraDomain).cellMarkers.length =
        paraDomain.cellCount ∧
      (invertTDIPFreezeMesh paraDomain).cellMarkers.Nodup := by
  constructor
  · simp [invertTDIPFreezeMesh, setCellMarkersFromCount]
  · exact (List.nodup_range _).map (fun x y hxy => Int.ofNat.inj hxy)

end MeshFreeze

section Merge

/-- Sorted insertion of one key, skipping values already present. -/
def insertUniq (v : ℤ) : List ℤ → List ℤ
  | [] => [v]
  | x :: xs =>
    if v < x then v :: x :: xs
    else if v = x then x :: xs
    else x :: insertUniq v xs

/-- `np.unique`: the distinct values of a vector in ascending order. -/
def npUnique (xs : List ℤ) : List ℤ := xs.foldr insertUniq []

/-- `np.searchsorted(xs, v)` (left) on a sorted array: the position of the
first entry not below `v`, i.e. the number of entries smaller than `v`. -/
def searchsortedLeft (xs : List ℤ) (v : ℤ) : ℕ :=
  xs.countP (fun x => decide (x < v))

/-- The fancy-indexed column assignment `M[ii, i] = vals`: write each value
at its row position, later writes winning. -/
def scatterColumn (init : List (Option ℚ)) (ps : List ℕ) (vals : List ℚ) :
    List (Option ℚ) :=
  (ps.zip vals).foldl (fun col pv => col.set pv.1 (some pv.2)) init

/-- The resistance vector a dataset contributes in `combineMultipleData`:
the registered `r` field if present, else `u / i` when all voltages and
currents are nonzero, else `rhoa / scheme['k'][ii]` when all apparent
resistivities are nonzero (`ii` are the dataset's canonical row positions),
else the zero-filled `r` field. -/
def rValues (kvec : List ℚ) (ii : List ℕ) (di : DataERT) : List ℚ :=
  if di.haveR then di.meas.map (fun e => e.r)
  else if (∀ e ∈ di.meas, e.u ≠ 0) ∧ (∀ e ∈ di.meas, e.i ≠ 0) then
    di.meas.map (fun e => e.u / e.i)
  else if ∀ e ∈ di.meas, e.rhoa ≠ 0 then
    (di.meas.zip ii).map (fun p => p.1.rhoa / kvec.getD p.2 0)
  else di.meas.map (fun e => e.r)

/-- `combineMultipleData(DATA)`: check equal sensor counts (the
`max(abs(diff(nEls))) == 0` assertion; `none` on failure), form the sorted
union `uI` of all forward keys (`np.unique(np.hstack(uIs))`), decode it
into the canonical scheme, re-encode the scheme
(`uI = uniqueERTIndex(scheme)`), obtain the geometric factors for the
scheme from the external `createGeometricFactors` collaborator, and
scatter each dataset's resistance and error vectors into its column of a
`[scheme.size x len(DATA)]` matrix pair: the data matrix starts as NaN
(`none` here), the error matrix as `np.zeros_like(R)` (`some 0`).
The returned data matrix is `RHOA = reshape(scheme['k'], [-1, 1]) * R`.
Matrices are represented as lists of columns; the `scheme.save` call is
file I/O with no effect on the returned data. -/
def combineMultipleData (geomFactors : List Meas → List ℚ)
    (DATA : List DataERT) :
    Option (List Meas × List (List (Option ℚ)) × List (List (Option ℚ))) :=
  match DATA with
  | [] => none
  | d0 :: _ =>
    if ∀ d ∈ DATA, d.sc = d0.sc then
      let nI : ℤ := (d0.sc : ℤ) + 1
      let uIs := DATA.map (fun d => uniqueERTIndex d 0 false)
      let uI0 := npUnique uIs.flatten
      let scheme := generateDataFromUniqueIndex uI0 nI
      let uI := scheme.map (uniqueIndex nI false)
      let kvec := geomFactors scheme
      let cols := (uIs.zip DATA).map (fun p =>
        let ii := p.1.map (searchsortedLeft uI)
        (scatterColumn (List.replicate scheme.length none) ii
          (rValues kvec ii p.2),
         scatterColumn (List.replicate scheme.length (some 0)) ii
          (p.2.meas.map (fun e => e.err))))
      let RHOA := (cols.map Prod.fst).map (fun col =>
        (kvec.zip col).map (fun p => p.2.map (fun v => p.1 * v)))
      some (scheme, RHOA, cols.map Prod.snd)
    else none

end Merge

section MergeLemmas

lemma insertUniq_mem (v : ℤ) (l : List ℤ) (w : ℤ) :
    w ∈ insertUniq v l ↔ w = v ∨ w ∈ l := by
  induction l with
  | nil => simp [insertUniq]
  | cons x xs ih =>
    unfold insertUniq
    split
    · simp [List.mem_cons]
    · next hge =>
      split
      · next heq =>
        subst heq
        simp [List.mem_cons]
      · simp only [List.mem_cons, ih]
        tauto

lemma insertUniq_sorted (v : ℤ) (l : List ℤ)
    (h : List.Sorted (· < ·) l) : List.Sorted (· < ·) (insertUniq v l) := by
  induction l with
  | nil => simp [insertUniq]
  | cons x xs ih =>
    rw [List.sorted_cons] at h
    unfold insertUniq
    split
    · next hlt =>
      rw [List.sorted_cons]
      refine ⟨?_, List.sorted_cons.mpr h⟩
      intro b hb
      rcases List.mem_cons.mp hb with hb | hb
      · exact hb ▸ hlt
      · exact lt_trans hlt (h.1 b hb)
    · next hge =>
      split
      · exact List.sorted_cons.mpr h
      · next heq =>
        rw [List.sorted_cons]
        refine ⟨?_, ih h.2⟩
        intro b hb
        rcases (insertUniq_mem v xs b).mp hb with hb | hb
        · subst hb; omega
        · exact h.1 b hb

lemma npUnique_sorted (xs : List ℤ) : List.Sorted (· < ·) (npUnique xs) := by
  induction xs with
  | nil => simp [npUnique]
  | cons x xs ih => exact insertUniq_sorted x _ ih

lemma npUnique_mem (xs : List ℤ) (w : ℤ) : w ∈ npUnique xs ↔ w ∈ xs := by
  induction xs with
  | nil => simp [npUnique]
  | cons x xs ih =>
    show w ∈ insertUniq x (npUnique xs) ↔ _
    rw [insertUniq_mem, ih, List.mem_cons]

lemma insertUniq_length_not_mem (v : ℤ) (l : List ℤ) (h : v ∉ l) :
    (insertUniq v l).length = l.length + 1 := by
  induction l with
  | nil => rfl
  | cons x xs ih =>
    unfold insertUniq
    split
    · rfl
    · split
      · next heq => exact absurd (heq ▸ List.mem_cons_self x xs) h
      · simp only [List.length_cons]
        rw [ih (fun hc => h (List.mem_cons_of_mem x hc))]

lemma npUnique_length_nodup (xs : List ℤ) (h : xs.Nodup) :
    (npUnique xs).length = xs.length := by
  induction xs with
  | nil => rfl
  | cons x xs ih =>
    rw [List.nodup_cons] at h
    show (insertUniq x (npUnique xs)).length = _
    rw [insertUniq_length_not_mem x _ (fun hc => h.1 ((npUnique_mem xs x).mp hc)),
      ih h.2]
    rfl

/-- On a strictly sorted array, `searchsorted` maps the value at index
`idx` back to `idx`. -/
lemma searchsortedLeft_getElem (l : List ℤ) (hs : List.Sorted (· < ·) l)
    (idx : ℕ) (v : ℤ) (h : l[idx]? = some v) :
    searchsortedLeft l v = idx := by
  induction l generalizing idx with
  | nil => simp at h
  | cons x xs ih =>
    rw [List.sorted_cons] at hs
    cases idx with
    | zero =>
      have hv : v = x := by simpa using h.symm
      subst hv
      unfold searchsortedLeft
      rw [List.countP_cons]
      have h0 : xs.countP (fun y => decide (y < v)) = 0 :=
        List.countP_eq_zero.mpr (fun y hy => by
          simpa using not_lt_of_lt (hs.1 y hy))
      simp [h0]
    | succ idx =>
      simp only [List.getElem?_cons_succ] at h
      have hxv : x < v := hs.1 v (List.getElem?_mem h)
      unfold searchsortedLeft
      rw [List.countP_cons]
      unfold searchsortedLeft at ih
      rw [ih hs.2 idx h]
      simp [hxv]

lemma scatterFold_length (pvs : List (ℕ × ℚ)) (init : List (Option ℚ)) :
    (pvs.foldl (fun col pv => col.set pv.1 (some pv.2)) init).length =
      init.length := by
  induction pvs generalizing init with
  | nil => rfl
  | cons pv rest ih =>
    rw [List.foldl_cons, ih, List.length_set]

lemma scatterFold_get_not_mem (pvs : List (ℕ × ℚ)) (init : List (Option ℚ))
    (row : ℕ) (h : ∀ pv ∈ pvs, pv.1 ≠ row) :
    (pvs.foldl (fun col pv => col.set pv.1 (some pv.2)) init)[row]? =
      init[row]? := by
  induction pvs generalizing init with
  | nil => rfl
  | cons pv rest ih =>
    rw [List.foldl_cons,
      ih _ (fun q hq => h q (List.mem_cons_of_mem pv hq)),
      List.getElem?_set, if_neg (h pv (List.mem_cons_self pv rest))]

lemma scatterFold_get_mem (pvs : List (ℕ × ℚ)) (init : List (Option ℚ))
    (row : ℕ) (hrow : row < init.length) (h : row ∈ pvs.map Prod.fst) :
    ∃ q, (pvs.foldl (fun col pv => col.set pv.1 (some pv.2)) init)[row]? =
      some (some q) := by
  induction pvs generalizing init with
  | nil => simp at h
  | cons pv rest ih =>
    rw [List.foldl_cons]
    by_cases hmem : row ∈ rest.map Prod.fst
    · exact ih _ (by rw [List.length_set]; exact hrow) hmem
    · have hpv : pv.1 = row := by
        have h2 : row ∈ pv.1 :: rest.map Prod.fst := by
          rw [List.map_cons] at h
          exact h
        rcases List.mem_cons.mp h2 with h1 | h1
        · exact h1.symm
        · exact absurd h1 hmem
      refine ⟨pv.2, ?_⟩
      rw [scatterFold_get_not_mem rest _ row
        (fun q hq hqe => hmem (hqe ▸ List.mem_map_of_mem Prod.fst hq))]
      rw [List.getElem?_set, if_pos hpv, if_pos (hpv ▸ hrow)]

end MergeLemmas

section MergeStructure

/-- An electrode tuple lies within the sensor range `[0, sc)`. -/
def validIdx (sc : ℕ) (e : Meas) : Prop :=
  0 ≤ e.a ∧ e.a < (sc : ℤ) ∧ 0 ≤ e.b ∧ e.b < (sc : ℤ) ∧
    0 ≤ e.m ∧ e.m < (sc : ℤ) ∧ 0 ≤ e.n ∧ e.n < (sc : ℤ)

instance (sc : ℕ) (e : Meas) : Decidable (validIdx sc e) := by
  unfold validIdx
  infer_instance

/-- Re-encoding the decoded tuple of an in-range key gives the key back. -/
lemma encode_decode_key (nI : ℤ) (e : Meas)
    (ha : 0 ≤ e.a) (ha' : e.a < nI - 1) (hb : 0 ≤ e.b) (hb' : e.b < nI - 1)
    (hm : 0 ≤ e.m) (hm' : e.m < nI - 1) (hn : 0 ≤ e.n) (hn' : e.n < nI - 1) :
    uniqueIndex nI false (decodeUnique nI (uniqueIndex nI false e)) =
      uniqueIndex nI false e := by
  rw [uniqueIndex_false_eq nI e]
  rw [decodeUnique_pack nI _ _ _ _ (by omega) (by omega) (by omega) (by omega)
    (by omega) (by omega) (by omega) (by omega)]
  rw [uniqueIndex_false_eq]
  simp only [add_sub_cancel_right]
  rw [min_eq_left min_le_max, max_eq_right min_le_max,
    min_eq_left min_le_max, max_eq_right min_le_max]

/-- Rebuilding a scheme from keys and re-encoding it is the identity on any
key list whose members all round-trip. -/
lemma scheme_reencode (nI : ℤ) (l : List ℤ)
    (h : ∀ k ∈ l, uniqueIndex nI false (decodeUnique nI k) = k) :
    (generateDataFromUniqueIndex l nI).map (uniqueIndex nI false) = l := by
  unfold generateDataFromUniqueIndex
  rw [List.map_map]
  have h' : ∀ k ∈ l, (uniqueIndex nI false ∘ decodeUnique nI) k = id k := h
  rw [List.map_congr_left h', List.map_id]

lemma rValues_length (kvec : List ℚ) (ii : List ℕ) (di : DataERT)
    (hii : ii.length = di.meas.length) :
    (rValues kvec ii di).length = di.meas.length := by
  unfold rValues
  split
  · simp
  split
  · simp
  split
  · simp [hii]
  · simp

lemma uniqueERTIndex_length (d : DataERT) (nI : ℕ) (rev : Bool) :
    (uniqueERTIndex d nI rev).length = d.meas.length := by
  unfold uniqueERTIndex
  simp

/-- The sorted union of the two datasets' forward keys
(`np.unique(np.hstack(uIs))`). -/
def mergeKeys (D1 D2 : DataERT) : List ℤ :=
  npUnique ([uniqueERTIndex D1 0 false, uniqueERTIndex D2 0 false].flatten)

/-- The canonical scheme `combineMultipleData` builds for two datasets. -/
def mergeScheme (D1 D2 : DataERT) : List Meas :=
  generateDataFromUniqueIndex (mergeKeys D1 D2) ((D1.sc : ℤ) + 1)

/-- The re-encoded canonical keys (`uI = uniqueERTIndex(scheme)`). -/
def mergeUI (D1 D2 : DataERT) : List ℤ :=
  (mergeScheme D1 D2).map (uniqueIndex ((D1.sc : ℤ) + 1) false)

/-- A dataset's canonical row positions (`np.searchsorted(uI, uIs[i])`). -/
def mergePos (D1 D2 di : DataERT) : List ℕ :=
  (uniqueERTIndex di 0 false).map (searchsortedLeft (mergeUI D1 D2))

/-- A dataset's scattered resistance column of the `R` matrix. -/
def mergeRcol (g : List Meas → List ℚ) (D1 D2 di : DataERT) :
    List (Option ℚ) :=
  scatterColumn (List.replicate (mergeScheme D1 D2).length none)
    (mergePos D1 D2 di)
    (rValues (g (mergeScheme D1 D2)) (mergePos D1 D2 di) di)

/-- A dataset's scattered error column of the `ERR` matrix. -/
def mergeEcol (D1 D2 di : DataERT) : List (Option ℚ) :=
  scatterColumn (List.replicate (mergeScheme D1 D2).length (some 0))
    (mergePos D1 D2 di) (di.meas.map (fun e => e.err))

/-- One column of `RHOA = reshape(scheme['k'], [-1, 1]) * R`. -/
def rhoaCol (kvec : List ℚ) (col : List (Option ℚ)) : List (Option ℚ) :=
  (kvec.zip col).map (fun p => p.2.map (fun v => p.1 * v))

lemma mergeKeys_eq (D1 D2 : DataERT) :
    mergeKeys D1 D2 = npUnique (uniqueERTIndex D1 0 false ++ uniqueERTIndex D2 0 false) := by
  unfold mergeKeys
  simp

lemma mergeScheme_length (D1 D2 : DataERT) :
    (mergeScheme D1 D2).length = (mergeKeys D1 D2).length := by
  unfold mergeScheme generateDataFromUniqueIndex
  simp

/-- On two-dataset input with matching sensor counts the merge returns the
named components. -/
lemma combineMultipleData_two_eq (g : List Meas → List ℚ) (D1 D2 : DataERT)
    (hsc : D2.sc = D1.sc) :
    combineMultipleData g [D1, D2] =
      some (mergeScheme D1 D2,
        [rhoaCol (g (mergeScheme D1 D2)) (mergeRcol g D1 D2 D1),
         rhoaCol (g (mergeScheme D1 D2)) (mergeRcol g D1 D2 D2)],
        [mergeEcol D1 D2 D1, mergeEcol D1 D2 D2]) := by
  unfold combineMultipleData
  dsimp only
  rw [if_pos (by
    intro d hd
    rcases List.mem_cons.mp hd with h | h
    · rw [h]
    · rw [List.mem_singleton.mp h, hsc])]
  rfl

end MergeStructure

section MergePattern

/-- With in-range electrode indices, re-encoding the canonical scheme gives
back exactly `np.unique`'s key list (the source comment wonders "why is
this not the same?" — for in-range indices it is). -/
lemma mergeUI_eq (D1 D2 : DataERT) (hsc : D2.sc = D1.sc)
    (hv1 : ∀ e ∈ D1.meas, validIdx D1.sc e)
    (hv2 : ∀ e ∈ D2.meas, validIdx D2.sc e) :
    mergeUI D1 D2 = mergeKeys D1 D2 := by
  unfold mergeUI mergeScheme
  apply scheme_reencode
  intro k hk
  rw [mergeKeys_eq, npUnique_mem] at hk
  rcases List.mem_append.mp hk with hk | hk
  · simp only [uniqueERTIndex, if_pos rfl, List.mem_map] at hk
    obtain ⟨e, he, hke⟩ := hk
    subst hke
    have hv := hv1 e he
    unfold validIdx at hv
    exact encode_decode_key _ e (by omega) (by omega) (by omega) (by omega)
      (by omega) (by omega) (by omega) (by omega)
  · simp only [uniqueERTIndex, if_pos rfl, List.mem_map] at hk
    obtain ⟨e, he, hke⟩ := hk
    subst hke
    have hv := hv2 e he
    unfold validIdx at hv
    rw [hsc] at hv
    rw [hsc]
    exact encode_decode_key _ e (by omega) (by omega) (by omega) (by omega)
      (by omega) (by omega) (by omega) (by omega)

/-- Indexing one rhoa column: the NaN pattern of the underlying `R` column
is preserved by the rowwise multiplication with the geometric factors. -/
lemma rhoaCol_get_none_iff (kvec : List ℚ) (col : List (Option ℚ))
    (row : ℕ) (h1 : row < kvec.length) (h2 : row < col.length) :
    ((rhoaCol kvec col)[row]? = some none ↔ col[row]? = some none) := by
  unfold rhoaCol
  have hz : row < (kvec.zip col).length := by
    rw [List.length_zip]
    omega
  rw [List.getElem?_map, List.getElem?_eq_getElem hz, List.getElem_zip,
    List.getElem?_eq_getElem h2]
  simp [Option.map_eq_none']

/-- Scattering values at the canonical positions of a key list: a row of
the column receives a value exactly when the row's key occurs in the list;
other rows keep the initial fill. -/
lemma scatterColumn_pattern (uI0 : List ℤ)
    (hs : List.Sorted (· < ·) uI0)
    (keys : List ℤ) (hsub : ∀ k ∈ keys, k ∈ uI0)
    (vals : List ℚ) (hlen : keys.length = vals.length)
    (init : List (Option ℚ)) (hinit : init.length = uI0.length)
    (row : ℕ) (key : ℤ) (hkey : uI0[row]? = some key) :
    (key ∈ keys →
      ∃ q, (scatterColumn init (keys.map (searchsortedLeft uI0)) vals)[row]? =
        some (some q)) ∧
    (key ∉ keys →
      (scatterColumn init (keys.map (searchsortedLeft uI0)) vals)[row]? =
        init[row]?) := by
  have hrowlt : row < uI0.length := (List.getElem?_eq_some.mp hkey).1
  have hiff : row ∈ keys.map (searchsortedLeft uI0) ↔ key ∈ keys := by
    constructor
    · intro h
      obtain ⟨k', hk', hk'eq⟩ := List.mem_map.mp h
      obtain ⟨idx, hidx⟩ := List.getElem?_of_mem (hsub k' hk')
      have hss := searchsortedLeft_getElem uI0 hs idx k' hidx
      have hir : idx = row := by rw [← hss, hk'eq]
      subst hir
      rw [hidx] at hkey
      exact (Option.some.inj hkey) ▸ hk'
    · intro h
      have hss := searchsortedLeft_getElem uI0 hs row key hkey
      exact hss ▸ List.mem_map_of_mem _ h
  unfold scatterColumn
  constructor
  · intro hmem
    apply scatterFold_get_mem
    · rw [hinit]
      exact hrowlt
    · rw [List.map_fst_zip _ _ (by rw [List.length_map, hlen])]
      exact hiff.mpr hmem
  · intro hnot
    apply scatterFold_get_not_mem
    intro pv hpv hpe
    have hin : pv.1 ∈ keys.map (searchsortedLeft uI0) :=
      (List.of_mem_zip hpv).1
    exact hnot (hiff.mp (hpe ▸ hin))

end MergePattern

/-- Full pattern for one dataset column: the rhoa column entry is NaN
(`none`) exactly when the row's key is absent from the dataset's keys, and
absent rows of the error column keep the zero fill. -/
lemma one_column_pattern (kvec : List ℚ) (uI0 keys : List ℤ)
    (vals evals : List ℚ) (hs : List.Sorted (· < ·) uI0)
    (hsub : ∀ k ∈ keys, k ∈ uI0)
    (hlen : keys.length = vals.length) (helen : keys.length = evals.length)
    (hklen : kvec.length = uI0.length)
    (row : ℕ) (key : ℤ) (hkey : uI0[row]? = some key) :
    ((rhoaCol kvec (scatterColumn (List.replicate uI0.length none)
        (keys.map (searchsortedLeft uI0)) vals))[row]? = some none ↔
      key ∉ keys) ∧
    (key ∉ keys → (scatterColumn (List.replicate uI0.length (some 0))
        (keys.map (searchsortedLeft uI0)) evals)[row]? = some (some 0)) := by
  have hrowlt : row < uI0.length := (List.getElem?_eq_some.mp hkey).1
  have hp := scatterColumn_pattern uI0 hs keys hsub vals hlen
    (List.replicate uI0.length none) (by simp) row key hkey
  have hpe := scatterColumn_pattern uI0 hs keys hsub evals helen
    (List.replicate uI0.length (some 0)) (by simp) row key hkey
  have hcollen : (scatterColumn (List.replicate uI0.length none)
      (keys.map (searchsortedLeft uI0)) vals).length = uI0.length := by
    unfold scatterColumn
    rw [scatterFold_length, List.length_replicate]
  constructor
  · rw [rhoaCol_get_none_iff kvec _ row (by rw [hklen]; exact hrowlt)
      (by rw [hcollen]; exact hrowlt)]
    by_cases hk : key ∈ keys
    · obtain ⟨q, hq⟩ := hp.1 hk
      simp [hq, hk]
    · have h0 := hp.2 hk
      rw [h0, List.getElem?_replicate, if_pos hrowlt]
      simp [hk]
  · intro hk
    rw [hpe.2 hk, List.getElem?_replicate, if_pos hrowlt]

/-- C7 amended — for two datasets with equal sensor counts, in-range
electrode indices, per-dataset distinct keys and disjoint key sets,
`combineMultipleData` returns the canonical scheme of size p + q (p, q the
two key-set sizes) together with a data matrix and an error matrix of one
column per dataset and one row per canonical key (matrices held
column-major here), in which a data-matrix entry is NaN (`none`) exactly
when that dataset has no measurement with the row's key — so each row has
exactly one non-NaN data entry across the two columns — while the error
matrix is zero-initialized (`np.zeros_like`), so entries of missing rows
are 0 there, not NaN. -/
theorem combineMultipleData_nan_pattern (g : List Meas → List ℚ)
    (D1 D2 : DataERT) (hsc : D2.sc = D1.sc)
    (hv1 : ∀ e ∈ D1.meas, validIdx D1.sc e)
    (hv2 : ∀ e ∈ D2.meas, validIdx D2.sc e)
    (hg : ∀ s : List Meas, (g s).length = s.length)
    (hn1 : (uniqueERTIndex D1 0 false).Nodup) (hn2 : (uniqueERTIndex D2 0 false).Nodup)
    (hdisj : ∀ k ∈ uniqueERTIndex D1 0 false, k ∉ uniqueERTIndex D2 0 false) :
    combineMultipleData g [D1, D2] =
      some (mergeScheme D1 D2,
        [rhoaCol (g (mergeScheme D1 D2)) (mergeRcol g D1 D2 D1),
         rhoaCol (g (mergeScheme D1 D2)) (mergeRcol g D1 D2 D2)],
        [mergeEcol D1 D2 D1, mergeEcol D1 D2 D2]) ∧
      (mergeScheme D1 D2).length = D1.meas.length + D2.meas.length ∧
      ∀ (row : ℕ) (key : ℤ), (mergeKeys D1 D2)[row]? = some key →
        (((rhoaCol (g (mergeScheme D1 D2)) (mergeRcol g D1 D2 D1))[row]? =
            some none) ↔ key ∉ uniqueERTIndex D1 0 false) ∧
        (((rhoaCol (g (mergeScheme D1 D2)) (mergeRcol g D1 D2 D2))[row]? =
            some none) ↔ key ∉ uniqueERTIndex D2 0 false) ∧
        (key ∉ uniqueERTIndex D1 0 false →
          (mergeEcol D1 D2 D1)[row]? = some (some 0)) ∧
        (key ∉ uniqueERTIndex D2 0 false →
          (mergeEcol D1 D2 D2)[row]? = some (some 0)) ∧
        (((rhoaCol (g (mergeScheme D1 D2)) (mergeRcol g D1 D2 D1))[row]? =
            some none) ↔
          ¬ ((rhoaCol (g (mergeScheme D1 D2)) (mergeRcol g D1 D2 D2))[row]? =
            some none)) := by
  have hln1 : (uniqueERTIndex D1 0 false).length = D1.meas.length :=
    uniqueERTIndex_length D1 0 false
  have hln2 : (uniqueERTIndex D2 0 false).length = D2.meas.length :=
    uniqueERTIndex_length D2 0 false
  have hnodup : (uniqueERTIndex D1 0 false ++ uniqueERTIndex D2 0 false).Nodup :=
    List.Nodup.append hn1 hn2 hdisj
  have hmklen : (mergeKeys D1 D2).length =
      D1.meas.length + D2.meas.length := by
    rw [mergeKeys_eq, npUnique_length_nodup _ hnodup, List.length_append,
      hln1, hln2]
  have hschlen : (mergeScheme D1 D2).length =
      D1.meas.length + D2.meas.length := by
    rw [mergeScheme_length, hmklen]
  refine ⟨combineMultipleData_two_eq g D1 D2 hsc, hschlen, ?_⟩
  intro row key hkey
  have hsorted : List.Sorted (· < ·) (mergeKeys D1 D2) := by
    rw [mergeKeys_eq]
    exact npUnique_sorted _
  have hui : mergeUI D1 D2 = mergeKeys D1 D2 := mergeUI_eq D1 D2 hsc hv1 hv2
  have hsub1 : ∀ k ∈ uniqueERTIndex D1 0 false, k ∈ mergeKeys D1 D2 := by
    intro k hk
    rw [mergeKeys_eq, npUnique_mem]
    exact List.mem_append_left _ hk
  have hsub2 : ∀ k ∈ uniqueERTIndex D2 0 false, k ∈ mergeKeys D1 D2 := by
    intro k hk
    rw [mergeKeys_eq, npUnique_mem]
    exact List.mem_append_right _ hk
  have hklen : (g (mergeScheme D1 D2)).length = (mergeKeys D1 D2).length := by
    rw [hg, mergeScheme_length]
  have hii1 : ((uniqueERTIndex D1 0 false).map
      (searchsortedLeft (mergeKeys D1 D2))).length = D1.meas.length := by
    rw [List.length_map, hln1]
  have hii2 : ((uniqueERTIndex D2 0 false).map
      (searchsortedLeft (mergeKeys D1 D2))).length = D2.meas.length := by
    rw [List.length_map, hln2]
  have hr1 : mergeRcol g D1 D2 D1 = scatterColumn
      (List.replicate (mergeKeys D1 D2).length none)
      ((uniqueERTIndex D1 0 false).map (searchsortedLeft (mergeKeys D1 D2)))
      (rValues (g (mergeScheme D1 D2))
        ((uniqueERTIndex D1 0 false).map (searchsortedLeft (mergeKeys D1 D2))) D1) := by
    unfold mergeRcol mergePos
    rw [hui, mergeScheme_length]
  have hr2 : mergeRcol g D1 D2 D2 = scatterColumn
      (List.replicate (mergeKeys D1 D2).length none)
      ((uniqueERTIndex D2 0 false).map (searchsortedLeft (mergeKeys D1 D2)))
      (rValues (g (mergeScheme D1 D2))
        ((uniqueERTIndex D2 0 false).map (searchsortedLeft (mergeKeys D1 D2))) D2) := by
    unfold mergeRcol mergePos
    rw [hui, mergeScheme_length]
  have he1 : mergeEcol D1 D2 D1 = scatterColumn
      (List.replicate (mergeKeys D1 D2).length (some 0))
      ((uniqueERTIndex D1 0 false).map (searchsortedLeft (mergeKeys D1 D2)))
      (D1.meas.map (fun e => e.err)) := by
    unfold mergeEcol mergePos
    rw [hui, mergeScheme_length]
  have he2 : mergeEcol D1 D2 D2 = scatterColumn
      (List.replicate (mergeKeys D1 D2).length (some 0))
      ((uniqueERTIndex D2 0 false).map (searchsortedLeft (mergeKeys D1 D2)))
      (D2.meas.map (fun e => e.err)) := by
    unfold mergeEcol mergePos
    rw [hui, mergeScheme_length]
  have hc1 := one_column_pattern (g (mergeScheme D1 D2)) (mergeKeys D1 D2)
    (uniqueERTIndex D1 0 false)
    (rValues (g (mergeScheme D1 D2))
      ((uniqueERTIndex D1 0 false).map (searchsortedLeft (mergeKeys D1 D2))) D1)
    (D1.meas.map (fun e => e.err)) hsorted hsub1
    (by rw [rValues_length _ _ _ hii1, hln1])
    (by rw [List.length_map, hln1]) hklen row key hkey
  have hc2 := one_column_pattern (g (mergeScheme D1 D2)) (mergeKeys D1 D2)
    (uniqueERTIndex D2 0 false)
    (rValues (g (mergeScheme D1 D2))
      ((uniqueERTIndex D2 0 false).map (searchsortedLeft (mergeKeys D1 D2))) D2)
    (D2.meas.map (fun e => e.err)) hsorted hsub2
    (by rw [rValues_length _ _ _ hii2, hln2])
    (by rw [List.length_map, hln2]) hklen row key hkey
  rw [hr1, hr2, he1, he2]
  have hkey_mem : key ∈ uniqueERTIndex D1 0 false ∨ key ∈ uniqueERTIndex D2 0 false := by
    have hmem : key ∈ mergeKeys D1 D2 := List.getElem?_mem hkey
    rw [mergeKeys_eq, npUnique_mem] at hmem
    exact List.mem_append.mp hmem
  refine ⟨hc1.1, hc2.1, hc1.2, hc2.2, ?_⟩
  rw [hc1.1, hc2.1]
  rcases hkey_mem with h | h
  · simp [h, hdisj key h]
  · have h1 : key ∉ uniqueERTIndex D1 0 false := fun hc => hdisj key hc h
    simp [h, h1]

/-- One-measurement dataset with key 194 over four sensors. -/
def mergeD1 : DataERT :=
  { sc := 4, meas := [{ a := 0, b := 1, m := 2, n := 3, r := 1, err := 1/10 }] }

/-- One-measurement dataset with the disjoint key 214 over four sensors. -/
def mergeD2 : DataERT :=
  { sc := 4, meas := [{ a := 0, b := 2, m := 1, n := 3, r := 2, err := 1/5 }] }

/-- Stand-in for the external `createGeometricFactors`: unit factors. -/
def onesK (s : List Meas) : List ℚ := s.map (fun _ => 1)

/-- C7 counterexample — on the disjoint pair {mergeD1, mergeD2}, canonical
row 1 (key 214) is absent from dataset 0: the data-matrix entry there is
NaN (`none`) as the claim says, but the error-matrix entry is 0
(`np.zeros_like` fill), not NaN — the claim's "NaN in both matrices" is
false for the error matrix. -/
theorem combineMultipleData_err_zero_not_nan :
    (combineMultipleData onesK [mergeD1, mergeD2]).map
        (fun out => ((out.2.1[0]?).bind (fun col => col[1]?),
          (out.2.2[0]?).bind (fun col => col[1]?))) =
      some (some none, some (some 0)) ∧
      (some (some (0 : ℚ)) : Option (Option ℚ)) ≠ some none := by
  constructor
  · with_unfolding_all rfl
  · simp

/-- Witness for C7 amended: the merge of {mergeD1, mergeD2} has 1 + 1
canonical rows; at row 1 (key 214, absent from mergeD1) the first data
column is NaN and the first error column is 0. -/
theorem combineMultipleData_nan_pattern_witness :
    (mergeScheme mergeD1 mergeD2).length = 1 + 1 ∧
      (((rhoaCol (onesK (mergeScheme mergeD1 mergeD2))
          (mergeRcol onesK mergeD1 mergeD2 mergeD1))[1]? = some none) ↔
        (214 : ℤ) ∉ uniqueERTIndex mergeD1 0 false) ∧
      ((214 : ℤ) ∉ uniqueERTIndex mergeD1 0 false →
        (mergeEcol mergeD1 mergeD2 mergeD1)[1]? = some (some 0)) := by
  have h := combineMultipleData_nan_pattern onesK mergeD1 mergeD2 rfl
    (by decide) (by decide) (by intro s; simp [onesK]) (by decide) (by decide)
    (by decide)
  have hk : (mergeKeys mergeD1 mergeD2)[1]? = some 214 := by decide
  exact ⟨h.2.1, (h.2.2 1 214 hk).1, (h.2.2 1 214 hk).2.2.1⟩
